import Mathlib

/-!
Verification of the bytewise-space / bytespace namespace layer.

The development shallowly embeds the three source files:
* the Prefix class and the preIterator range translator of the
  bytewise-space variant (src/unnamed/part_000);
* the space.batch commit path and the addHook registration helper of the
  bytespace variant (src/index.js, with src/unnamed/part_001 agreeing on
  the modelled behavior).

Byte buffers are lists of naturals, JS keys are either strings (kept as
their UTF-8 byte content) or buffers, and the assertion in
Prefix.prototype.contains is modelled by an Option result.
-/

namespace BytewiseSpace

/-- Contents of a JS Buffer: a list of byte values. -/
abbrev Bytes := List Nat

/-- A JS key value reaching the Prefix methods: either a string (carried
as its UTF-8 byte content) or a Buffer. -/
inductive Key where
  | str : Bytes → Key
  | buf : Bytes → Key
deriving Repr, DecidableEq

/-- Byte content of a key: strings become their UTF-8 bytes (as
JS Buffer construction from a string does), buffers are used verbatim. -/
def Key.bytes : Key → Bytes
  | .str s => s
  | .buf b => b

/-- Whether the key is a Buffer (Buffer.isBuffer). -/
def Key.isBuf : Key → Bool
  | .str _ => false
  | .buf _ => true

/-- A namespace path segment, carried as the UTF-8 byte content of its
string value. -/
abbrev Segment := Bytes

/-- Modelled from the spec: the ByteCodec (the bytewise-core dependency,
not under src/) escapes element content bytes so that the element
terminator byte 0x00 cannot occur inside an element: 0x00 becomes
0x01 0x01 and 0x01 becomes 0x01 0x02. -/
def escByte (b : Nat) : List Nat :=
  if b = 0 then [1, 1] else if b = 1 then [1, 2] else [b]

/-- Escaping of a whole byte sequence. -/
def esc (l : List Nat) : List Nat := l.flatMap escByte

/-- Inverse of the escaping, used to show escaping is lossless. -/
def unesc : List Nat → List Nat
  | [] => []
  | a :: rest =>
    if a = 1 then
      match rest with
      | [] => []
      | c :: rest2 => (if c = 1 then 0 else 1) :: unesc rest2
    else a :: unesc rest

/-- Modelled from the spec: a single array-element chunk of the ByteCodec
array encoding — the string tag byte 0x70 and the content bytes, escaped,
followed by the 0x00 element terminator (self-delimiting encoding,
spec section 4.1). -/
def segChunk (s : Segment) : List Nat := esc (0x70 :: s) ++ [0]

/-- Modelled from the spec: bytewise.encode on a path array (the
bytewise-core dependency is not under src/) — the array tag byte 0xa0
followed by each element's self-delimiting chunk. -/
def bwEncode (path : List Segment) : Bytes := 0xa0 :: path.flatMap segChunk

/-- The Prefix instance of src/unnamed/part_000: a path together with its
encoded buffer. -/
structure Pfx where
  path : List Segment
  buffer : Bytes
deriving Repr, DecidableEq

/-- The Prefix constructor: this.buffer = bytewise.encode(path). -/
def newPrefix (path : List Segment) : Pfx := ⟨path, bwEncode path⟩

/-- Prefix.prototype.append: new Prefix(this.path.concat(sub)). -/
def Pfx.append (p : Pfx) (sub : Segment) : Pfx := newPrefix (p.path ++ [sub])

/-- Prefix.prototype.contains: asserts Buffer.isBuffer(key) (the none
result models the assertion throw), then compares this.buffer with
key.slice(0, this.buffer.length). -/
def Pfx.contains (p : Pfx) (key : Key) : Option Bool :=
  match key with
  | .str _ => none
  | .buf b => some (decide (p.buffer = b.take p.buffer.length))

/-- Prefix.prototype.decode: passthrough when contains is false,
otherwise strip the prefix bytes; propagates the contains assertion
failure. -/
def Pfx.decode (p : Pfx) (key : Key) : Option Key :=
  match p.contains key with
  | none => none
  | some false => some key
  | some true => some (.buf ((Key.bytes key).drop p.buffer.length))

/-- Prefix.prototype.encode: a string key is first turned into a Buffer,
then Buffer.concat([this.buffer, key]). -/
def Pfx.encode (p : Pfx) (key : Key) : Bytes := p.buffer ++ key.bytes

/-- LOWER_BOUND = new Buffer([]). -/
def LOWER_BOUND : Bytes := []

/-- UPPER_BOUND = new Buffer([0xff]). -/
def UPPER_BOUND : Bytes := [0xff]

/-- The range options read and rewritten by preIterator.  A some value
means the option is present ('key' in options). -/
structure RangeOptions where
  start_ : Option Key
  end_ : Option Key
  gt_ : Option Key
  gte_ : Option Key
  lt_ : Option Key
  lte_ : Option Key
  reverse : Bool
deriving Repr, DecidableEq

/-- this.encode(bound, options) as called from preIterator (the options
argument is ignored by Prefix.prototype.encode); the result is a Buffer. -/
def encodeBound (p : Pfx) (k : Key) : Key := .buf (p.encode k)

/-- The range-option translation of preIterator in src/unnamed/part_000
(lines 142-191): start/end resolution honoring reverse (with the bare
TODO branch when both bound styles are present), then lower/upper bound
resolution with namespace-prefixed defaults. -/
def preIterator (p : Pfx) (o : RangeOptions) : RangeOptions :=
  let hasStart := o.start_.isSome
  let hasEnd := o.end_.isSome
  let hasGt := o.gt_.isSome
  let hasGte := o.gte_.isSome
  let hasLt := o.lt_.isSome
  let hasLte := o.lte_.isSome
  let step1 : RangeOptions × Bool × Bool :=
    if hasStart || hasEnd then
      if hasGt || hasLt || hasGte || hasLte then
        (o, hasGte, hasLte)
      else
        let o1 :=
          if !o.reverse then
            { o with gte_ := some (o.start_.getD (.buf LOWER_BOUND)),
                     lte_ := some (o.end_.getD (.buf UPPER_BOUND)) }
          else
            { o with gte_ := some (o.end_.getD (.buf LOWER_BOUND)),
                     lte_ := some (o.start_.getD (.buf UPPER_BOUND)) }
        ({ o1 with start_ := none, end_ := none }, true, true)
    else (o, hasGte, hasLte)
  let o2 := step1.1
  let hasGte2 := step1.2.1
  let hasLte2 := step1.2.2
  let o3 :=
    if hasGt then { o2 with gt_ := o2.gt_.map (encodeBound p), gte_ := none }
    else if hasGte2 then { o2 with gte_ := o2.gte_.map (encodeBound p) }
    else { o2 with gt_ := some (encodeBound p (.buf LOWER_BOUND)) }
  if hasLt then { o3 with lt_ := o3.lt_.map (encodeBound p), lte_ := none }
  else if hasLte2 then { o3 with lte_ := o3.lte_.map (encodeBound p) }
  else { o3 with lt_ := some (encodeBound p (.buf UPPER_BOUND)) }

/-- A resolved bound slot is namespace-prefixed: absent, or a key whose
bytes start with the namespace's prefix buffer. -/
def boundPrefixed (p : Pfx) : Option Key → Prop
  | none => True
  | some k => p.buffer <+: k.bytes

/-- Batch operation type. -/
inductive OpType where
  | put
  | del
deriving Repr, DecidableEq

/-- The value of an op.prefix property in a batch operation: a reference
to a bytespace object (identified by an id resolved through the
namespace environment) or an object whose .namespace is not a valid
Namespace instance. -/
inductive PrefixRef where
  | valid (id : Nat)
  | invalid
deriving Repr, DecidableEq

/-- A batch operation as space.batch receives it; prefix_ = none means
op.prefix is absent and defaults to the batch's own space. -/
structure BOp where
  type_ : OpType
  key : Key
  value : Option Bytes
  prefix_ : Option PrefixRef
deriving Repr, DecidableEq

/-- A mutator call a pre-commit hook makes through its add argument:
add(false) cancels the hook's own operation (delete ops[i]), add(op)
appends a further operation to the array. -/
inductive MutateCall where
  | cancel
  | push (op : BOp)

/-- Modelled from the spec: a valid Namespace instance as the batch path
uses it (src/namespace.js is not under src/) — its encoded prefix bytes
and its ordered pre-commit hook list; a hook, invoked by ns.trigger with
(op, add, ops), is modelled by the sequence of add calls it performs on
the op it is given. -/
structure NS where
  prefixB : Bytes
  prehooks : List (BOp → List MutateCall)

/-- Modelled from the spec: ns.trigger(ns.prehooks, op.prefix,
[op, add, ops]) invokes each registered pre-commit hook in registration
order; the result is the concatenated sequence of add calls. -/
def runPrehooks (ns : NS) (op : BOp) : List MutateCall :=
  ns.prehooks.flatMap (fun h => h op)

/-- Resolve an operation's owning namespace: absent prefix defaults to
the batch's own space, a reference resolves through the environment, and
an invalid reference has no namespace (op.prefix.namespace is not a
Namespace instance). -/
def opNs (env : Nat → NS) (spaceId : Nat) (op : BOp) : Option NS :=
  match op.prefix_ with
  | none => some (env spaceId)
  | some (.valid i) => some (env i)
  | some .invalid => none

/-- One iteration of the pre-commit loop of space.batch in src/index.js
(lines 171-185): default the op's prefix, abort on an invalid namespace
(none), otherwise run the namespace's pre-hooks; returns the slot content
left at this index (delete ops[i] leaves a hole, modelled as an inner
none) together with the list of pushed operations. -/
def stepOp (env : Nat → NS) (spaceId : Nat) (op : BOp) :
    Option (Option BOp × List BOp) :=
  match opNs env spaceId op with
  | none => none
  | some ns =>
    let calls := runPrehooks ns op
    let cancelled := calls.any (fun c => match c with | .cancel => true | _ => false)
    let pushed := calls.filterMap (fun c => match c with | .push o => some o | _ => none)
    some ((if cancelled then none else some op), pushed)

/-- The whole pre-commit loop: the loop bound len = ops.length is fixed
before the loop, so operations pushed by hooks are appended after the
original positions and are not themselves hook-processed.  Returns none
as soon as an op with an invalid owning namespace is met. -/
def preScan (env : Nat → NS) (spaceId : Nat) :
    List BOp → Option (List (Option BOp) × List BOp)
  | [] => some ([], [])
  | op :: rest =>
    match stepOp env spaceId op with
    | none => none
    | some (slot, pushed) =>
      match preScan env spaceId rest with
      | none => none
      | some (slots, pushes) => some (slot :: slots, pushed ++ pushes)

/-- An operation as handed to db.batch: type, fully encoded key, value. -/
structure EncOp where
  type_ : OpType
  key : Bytes
  value : Option Bytes
deriving Repr, DecidableEq

/-- op.prefix.namespace.encode(op.key, opts, op), with Namespace.encode
modelled from the spec as prefixBytes ++ ByteCodec bytes of the user key
(byte content used verbatim); fails (a thrown TypeError) when the op's
prefix has no valid namespace. -/
def encodeOp (env : Nat → NS) (spaceId : Nat) (op : BOp) : Option EncOp :=
  (opNs env spaceId op).map (fun ns => ⟨op.type_, ns.prefixB ++ op.key.bytes, op.value⟩)

/-- The encodedOps array: ops.map preserves holes and encodes each real
operation; a failing encode aborts with none. -/
def encodeSlots (env : Nat → NS) (spaceId : Nat) (arr : List (Option BOp)) :
    Option (List (Option EncOp)) :=
  arr.mapM (fun slot =>
    match slot with
    | none => some (none : Option EncOp)
    | some op => (encodeOp env spaceId op).map some)

/-- The observable outcome of one space.batch call: the unknown-prefix
callback error, a thrown error delivered to the callback, the trivial
success with no store call, or the single db.batch store call carrying
the (possibly sparse) encoded array, followed by the post-hook pass over
the operations the post-commit forEach iterates (holes are skipped). -/
inductive BatchResult where
  | errUnknownPrefix
  | errThrown
  | okEmpty
  | okStore (stored : List (Option EncOp)) (postsPass : List BOp)
deriving Repr, DecidableEq

/-- space.batch of src/index.js (lines 156-222), src/unnamed/part_001
agreeing on the modelled behavior: run the pre-commit loop, return the
trivial success only when the ops array length is zero, otherwise encode
all slots and issue the store call. -/
def spaceBatch (env : Nat → NS) (spaceId : Nat) (ops : List BOp) : BatchResult :=
  match preScan env spaceId ops with
  | none => .errUnknownPrefix
  | some (slots, pushes) =>
    let arr := slots ++ pushes.map some
    if arr.isEmpty then .okEmpty
    else
      match encodeSlots env spaceId arr with
      | none => .errThrown
      | some stored => .okStore stored (arr.filterMap id)

/-- Array.prototype.indexOf restricted to the hook lists: index of the
first element identical to the argument, none when absent.  Hook
identities (JS function references) are carried as naturals. -/
def jsIndexOf (hook : Nat) : List Nat → Option Nat
  | [] => none
  | a :: rest => if a = hook then some 0 else (jsIndexOf hook rest).map (· + 1)

/-- hooks.push(hook) inside addHook of src/index.js (line 137). -/
def addHookReg (hooks : List Nat) (hook : Nat) : List Nat := hooks ++ [hook]

/-- The deregistration closure returned by addHook (src/index.js lines
138-141) acting on the current hook list: i = hooks.indexOf(hook); if
i >= 0, hooks.splice(i, 1). -/
def deregHook (hook : Nat) (hooks : List Nat) : List Nat :=
  match jsIndexOf hook hooks with
  | none => hooks
  | some i => hooks.eraseIdx i

/-! ### Helper lemmas on the encoding -/

theorem escByte_ne_nil (a : Nat) : escByte a ≠ [] := by
  unfold escByte
  split_ifs <;> simp

theorem zero_not_mem_escByte (a : Nat) : 0 ∉ escByte a := by
  unfold escByte
  split_ifs with h0 h1
  · simp
  · simp
  · simp
    omega

theorem zero_not_mem_esc (l : List Nat) : 0 ∉ esc l := by
  induction l with
  | nil => simp [esc]
  | cons a l ih =>
    intro h
    rw [esc, List.flatMap_cons, List.mem_append] at h
    rcases h with h | h
    · exact zero_not_mem_escByte a h
    · exact ih h

theorem unesc_esc (l : List Nat) : unesc (esc l) = l := by
  induction l with
  | nil => rfl
  | cons a l ih =>
    rcases eq_or_ne a 0 with h0 | h0
    · subst h0
      have hcons : esc (0 :: l) = 1 :: 1 :: esc l := rfl
      rw [hcons, unesc.eq_def]
      simp [ih]
    · rcases eq_or_ne a 1 with h1 | h1
      · subst h1
        have hcons : esc (1 :: l) = 1 :: 2 :: esc l := rfl
        rw [hcons, unesc.eq_def]
        simp [ih]
      · have hcons : esc (a :: l) = a :: esc l := by
          simp [esc, escByte, h0, h1]
        rw [hcons, unesc.eq_def]
        simp [h1, ih]

theorem esc_injOn {l1 l2 : List Nat} (h : esc l1 = esc l2) : l1 = l2 := by
  have := congrArg unesc h
  rwa [unesc_esc, unesc_esc] at this

theorem segChunk_ne_nil (s : Segment) : segChunk s ≠ [] := by
  simp [segChunk]

/-- Element chunks are prefix-free: a chunk that is a byte prefix of
another chunk comes from the same segment. -/
theorem segChunk_isPre_eq {s1 s2 : Segment} (h : segChunk s1 <+: segChunk s2) :
    s1 = s2 := by
  have hlen : (segChunk s1).length ≤ (segChunk s2).length := h.length_le
  simp only [segChunk, List.length_append, List.length_singleton] at hlen
  rcases Nat.lt_or_ge (esc (0x70 :: s1)).length (esc (0x70 :: s2)).length with hlt | hge
  · exfalso
    have htake := List.prefix_iff_eq_take.mp h
    have hlen2 : (segChunk s1).length ≤ (esc (0x70 :: s2)).length := by
      simp only [segChunk, List.length_append, List.length_singleton]
      omega
    rw [segChunk, segChunk, List.take_append_eq_append_take,
        Nat.sub_eq_zero_of_le (by simpa [segChunk] using hlen2), List.take_zero,
        List.append_nil] at htake
    have hmem : (0 : Nat) ∈ esc (0x70 :: s1) ++ [0] := by simp
    rw [htake] at hmem
    exact zero_not_mem_esc _ (List.take_subset _ _ hmem)
  · have heq : (segChunk s1).length = (segChunk s2).length := by
      simp only [segChunk, List.length_append, List.length_singleton]
      omega
    have := List.IsPrefix.eq_of_length h heq
    rw [segChunk, segChunk] at this
    have hesc := List.append_cancel_right this
    have h3 := esc_injOn hesc
    injection h3

theorem bwEncode_append (path : List Segment) (s : Segment) :
    bwEncode (path ++ [s]) = bwEncode path ++ segChunk s := by
  simp [bwEncode]

/-- A chunk is never a prefix of a different segment's chunk, even when
the latter is extended by arbitrary bytes. -/
theorem segChunk_not_isPre_ext {s1 s2 : Segment} (hne : s1 ≠ s2) (r : Bytes) :
    ¬ (segChunk s1 <+: segChunk s2 ++ r) := by
  intro h
  rcases le_or_lt (segChunk s1).length (segChunk s2).length with hle | hlt
  · have h2 : segChunk s1 <+: segChunk s2 := by
      have htake := List.prefix_iff_eq_take.mp h
      rw [List.take_append_eq_append_take, Nat.sub_eq_zero_of_le hle,
          List.take_zero, List.append_nil] at htake
      rw [htake]
      exact List.take_prefix _ _
    exact hne (segChunk_isPre_eq h2)
  · have h2 : segChunk s2 <+: segChunk s1 :=
      List.prefix_of_prefix_length_le (List.prefix_append _ _) h (Nat.le_of_lt hlt)
    exact hne (segChunk_isPre_eq h2).symm

/-- contains on a buffer key is the prefix test on the stored buffer. -/
theorem contains_eq_decide (p : Pfx) (b : Bytes) :
    p.contains (.buf b) = some (decide (p.buffer <+: b)) := by
  simp only [Pfx.contains, Option.some.injEq]
  exact decide_eq_decide.mpr List.prefix_iff_eq_take.symm

/-! ### Claim theorems -/

/-- Claim C1: Round-trip with passthrough — decoding a key encoded under
the same namespace strips exactly the prefix bytes and returns the key's
byte content (the key itself for Buffer keys; JS Buffer/string loose
equality compares exactly this byte content for string keys); a full key
whose leading bytes do not equal the prefix bytes passes through decode
unchanged, and one whose leading bytes do equal them has exactly the
prefix bytes stripped. -/
theorem decode_encode_roundtrip (p : Pfx) (k : Key) (full : Bytes) :
    p.decode (.buf (p.encode k)) = some (.buf k.bytes)
    ∧ (¬ p.buffer <+: full → p.decode (.buf full) = some (.buf full))
    ∧ (p.buffer <+: full →
        p.decode (.buf full) = some (.buf (full.drop p.buffer.length))) := by
  refine ⟨?_, ?_, ?_⟩
  · have hc : p.contains (.buf (p.encode k)) = some true := by
      rw [contains_eq_decide]
      simp [Pfx.encode, List.prefix_append]
    simp only [Pfx.decode]
    rw [hc]
    simp [Pfx.encode, Key.bytes, List.drop_left]
  · intro h
    have hc : p.contains (.buf full) = some false := by
      rw [contains_eq_decide]
      simp [h]
    simp [Pfx.decode, hc]
  · intro h
    have hc : p.contains (.buf full) = some true := by
      rw [contains_eq_decide]
      simp [h]
    simp [Pfx.decode, hc, Key.bytes]

/-- Witness for C1 at a concrete namespace, key and foreign full key. -/
theorem decode_encode_roundtrip_witness :
    (newPrefix [[97]]).decode (.buf ((newPrefix [[97]]).encode (.buf [1, 2])))
        = some (.buf [1, 2])
    ∧ (newPrefix [[97]]).decode (.buf [9]) = some (.buf [9]) := by
  refine ⟨(decode_encode_roundtrip (newPrefix [[97]]) (.buf [1, 2]) [9]).1, ?_⟩
  exact (decode_encode_roundtrip (newPrefix [[97]]) (.buf [1, 2]) [9]).2.1 (by decide)

/-- Claim C2: Prefix containment — a child's prefix buffer extends the
parent's buffer strictly; children of the same parent built from
distinct segments are mutually non-prefix; and a full key encoded under
one sibling is never contained in the other sibling's block, so a range
scan bounded to one sibling's block never returns the other's keys. -/
theorem append_containment (path : List Segment) (s s1 s2 : Segment)
    (hne : s1 ≠ s2) (k : Key) :
    ((newPrefix path).buffer <+: ((newPrefix path).append s).buffer
      ∧ (newPrefix path).buffer ≠ ((newPrefix path).append s).buffer)
    ∧ ¬ (((newPrefix path).append s1).buffer <+: ((newPrefix path).append s2).buffer)
    ∧ ((newPrefix path).append s1).contains
        (.buf (((newPrefix path).append s2).encode k)) = some false := by
  have hbuf : ∀ t, ((newPrefix path).append t).buffer = bwEncode path ++ segChunk t := by
    intro t
    simp [Pfx.append, newPrefix, bwEncode_append]
  refine ⟨⟨?_, ?_⟩, ?_, ?_⟩
  · rw [hbuf]
    exact List.prefix_append _ _
  · rw [hbuf]
    intro h
    have hlen := congrArg List.length h
    simp only [newPrefix, List.length_append] at hlen
    have : (segChunk s).length = 0 := by omega
    exact segChunk_ne_nil s (List.length_eq_zero.mp this)
  · rw [hbuf, hbuf]
    intro h
    rw [List.prefix_append_right_inj] at h
    exact hne (segChunk_isPre_eq h)
  · have henc : ((newPrefix path).append s2).encode k
        = (bwEncode path ++ segChunk s2) ++ k.bytes := by
      rw [Pfx.encode, hbuf]
    rw [contains_eq_decide, henc, hbuf, List.append_assoc]
    have hnp : ¬ (bwEncode path ++ segChunk s1 <+: bwEncode path ++ (segChunk s2 ++ k.bytes)) := by
      rw [List.prefix_append_right_inj]
      exact segChunk_not_isPre_ext hne _
    simp [hnp]

/-- Witness for C2 with concrete parent path and two distinct segments. -/
theorem append_containment_witness :
    (newPrefix [[97]]).buffer <+: ((newPrefix [[97]]).append [98]).buffer
    ∧ ((newPrefix [[97]]).append [98]).contains
        (.buf (((newPrefix [[97]]).append [99]).encode (.buf [1]))) = some false := by
  have h := append_containment [[97]] [98] [98] [99] (by decide) (.buf [1])
  exact ⟨h.1.1, h.2.2⟩

/-- Claim C10: contains is only total over Buffer inputs — a non-Buffer
key makes contains fail its assertion (modelled none) rather than return
false, and decode of a non-Buffer key propagates the assertion failure
instead of acting as a passthrough. -/
theorem contains_asserts_buffer (p : Pfx) (k : Key) (h : k.isBuf = false) :
    p.contains k = none ∧ p.decode k = none := by
  cases k with
  | str s => simp [Pfx.contains, Pfx.decode]
  | buf b => simp [Key.isBuf] at h

/-- Witness for C10 at a concrete namespace and a string key. -/
theorem contains_asserts_buffer_witness :
    (newPrefix [[97]]).contains (.str [104, 105]) = none
    ∧ (newPrefix [[97]]).decode (.str [104, 105]) = none :=
  contains_asserts_buffer (newPrefix [[97]]) (.str [104, 105]) rfl

/-- Claim C3: Range translation of start/end — with start or end present
and none of gt/gte/lt/lte, the translator resolves gte to start (or
LOWER_BOUND when absent) and lte to end (or UPPER_BOUND) for forward
scans, swaps the roles for reverse scans, removes start and end, and the
chosen bounds come out encoded under the namespace prefix. -/
theorem preIterator_start_end (p : Pfx) (o : RangeOptions)
    (hgt : o.gt_ = none) (hgte : o.gte_ = none)
    (hlt : o.lt_ = none) (hlte : o.lte_ = none)
    (hse : o.start_.isSome = true ∨ o.end_.isSome = true) :
    (preIterator p o).start_ = none ∧ (preIterator p o).end_ = none
    ∧ (preIterator p o).gt_ = none ∧ (preIterator p o).lt_ = none
    ∧ (o.reverse = false →
        (preIterator p o).gte_ = some (encodeBound p (o.start_.getD (.buf LOWER_BOUND)))
        ∧ (preIterator p o).lte_ = some (encodeBound p (o.end_.getD (.buf UPPER_BOUND))))
    ∧ (o.reverse = true →
        (preIterator p o).gte_ = some (encodeBound p (o.end_.getD (.buf LOWER_BOUND)))
        ∧ (preIterator p o).lte_ = some (encodeBound p (o.start_.getD (.buf UPPER_BOUND)))) := by
  rcases o with ⟨os, oe, og1, og2, ol1, ol2, orv⟩
  dsimp only at hgt hgte hlt hlte hse ⊢
  subst hgt hgte hlt hlte
  rcases os with _ | vs <;> rcases oe with _ | ve <;> cases orv <;>
    simp_all [preIterator, encodeBound]

/-- Witness for C3 at a concrete forward query with only start given. -/
theorem preIterator_start_end_witness :
    (preIterator (newPrefix [[97]])
        ⟨some (.buf [5]), none, none, none, none, none, false⟩).gte_
      = some (encodeBound (newPrefix [[97]]) (.buf [5])) := by
  have h := preIterator_start_end (newPrefix [[97]])
    ⟨some (.buf [5]), none, none, none, none, none, false⟩
    rfl rfl rfl rfl (Or.inl rfl)
  simpa using (h.2.2.2.2.1 rfl).1

/-- Claim C4: Bound confinement — every resolved bound (gt, gte, lt or
lte) coming out of the translator, for every caller-supplied option set,
begins with the namespace's prefix bytes. -/
theorem preIterator_bounds_prefixed (p : Pfx) (o : RangeOptions) :
    boundPrefixed p (preIterator p o).gt_ ∧ boundPrefixed p (preIterator p o).gte_
    ∧ boundPrefixed p (preIterator p o).lt_ ∧ boundPrefixed p (preIterator p o).lte_ := by
  rcases o with ⟨os, oe, og1, og2, ol1, ol2, orv⟩
  rcases os with _ | vs <;> rcases oe with _ | ve <;> rcases og1 with _ | vg1 <;>
    rcases og2 with _ | vg2 <;> rcases ol1 with _ | vl1 <;> rcases ol2 with _ | vl2 <;>
    cases orv <;>
    simp [preIterator, boundPrefixed, encodeBound, Pfx.encode, Key.bytes,
      List.prefix_append]

/-- Claim C5 (the code violates it): with start and gte simultaneously
present, the translator's mixed branch is an empty TODO — no error is
surfaced; start stays in the options untranslated and unencoded while
gte is encoded and the default upper bound is installed.  The embedding
is a total function precisely because the source has no error path
here. -/
theorem preIterator_mixed_start_gte_silent :
    preIterator (newPrefix [[97]])
        ⟨some (.buf [1]), none, none, some (.buf [2]), none, none, false⟩
      = ⟨some (.buf [1]), none, none,
          some (.buf (bwEncode [[97]] ++ [2])),
          some (.buf (bwEncode [[97]] ++ [0xff])), none, false⟩ := by
  rfl

/-- Claim C6: Default bounds and precedence — gt wins over gte (gte is
discarded), lt wins over lte, the lower bound defaults to the encoded
empty buffer as an exclusive gt, the upper bound defaults to the encoded
0xff sentinel as an exclusive lt, and a query with no bounds resolves to
exactly the namespace's full prefix block. -/
theorem preIterator_defaults (p : Pfx) (o : RangeOptions)
    (hs : o.start_ = none) (he : o.end_ = none) :
    (∀ g, o.gt_ = some g →
        (preIterator p o).gt_ = some (encodeBound p g) ∧ (preIterator p o).gte_ = none)
    ∧ (∀ g, o.gt_ = none → o.gte_ = some g →
        (preIterator p o).gte_ = some (encodeBound p g) ∧ (preIterator p o).gt_ = none)
    ∧ (o.gt_ = none → o.gte_ = none →
        (preIterator p o).gt_ = some (encodeBound p (.buf LOWER_BOUND))
        ∧ (preIterator p o).gte_ = none)
    ∧ (∀ l, o.lt_ = some l →
        (preIterator p o).lt_ = some (encodeBound p l) ∧ (preIterator p o).lte_ = none)
    ∧ (∀ l, o.lt_ = none → o.lte_ = some l →
        (preIterator p o).lte_ = some (encodeBound p l) ∧ (preIterator p o).lt_ = none)
    ∧ (o.lt_ = none → o.lte_ = none →
        (preIterator p o).lt_ = some (encodeBound p (.buf UPPER_BOUND))
        ∧ (preIterator p o).lte_ = none)
    ∧ (o.gt_ = none → o.gte_ = none → o.lt_ = none → o.lte_ = none →
        preIterator p o = ⟨none, none, some (encodeBound p (.buf LOWER_BOUND)), none,
          some (encodeBound p (.buf UPPER_BOUND)), none, o.reverse⟩) := by
  rcases o with ⟨os, oe, og1, og2, ol1, ol2, orv⟩
  dsimp only at hs he ⊢
  subst hs he
  rcases og1 with _ | vg1 <;> rcases og2 with _ | vg2 <;> rcases ol1 with _ | vl1 <;>
    rcases ol2 with _ | vl2 <;>
    simp [preIterator, encodeBound]

/-- Witness for C6: the bound-less query resolves to exactly the
namespace's full prefix block. -/
theorem preIterator_defaults_witness :
    preIterator (newPrefix [[97]]) ⟨none, none, none, none, none, none, false⟩
      = ⟨none, none, some (encodeBound (newPrefix [[97]]) (.buf LOWER_BOUND)), none,
          some (encodeBound (newPrefix [[97]]) (.buf UPPER_BOUND)), none, false⟩ :=
  (preIterator_defaults (newPrefix [[97]]) ⟨none, none, none, none, none, none, false⟩
    rfl rfl).2.2.2.2.2.2 rfl rfl rfl rfl

/-- The pre-commit loop aborts as soon as any original operation has an
invalid owning namespace. -/
theorem preScan_invalid (env : Nat → NS) (spaceId : Nat) :
    ∀ ops : List BOp, (∃ op ∈ ops, op.prefix_ = some .invalid) →
      preScan env spaceId ops = none := by
  intro ops h
  induction ops with
  | nil => simp at h
  | cons op rest ih =>
    rcases h with ⟨bad, hmem, hbad⟩
    rcases List.mem_cons.mp hmem with heq | hmem2
    · subst heq
      simp [preScan, stepOp, opNs, hbad]
    · have hr := ih ⟨bad, hmem2, hbad⟩
      cases hst : stepOp env spaceId op with
      | none => simp [preScan, hst]
      | some pr =>
        rcases pr with ⟨slot, pushed⟩
        simp [preScan, hst, hr]

/-- Claim C7: Unknown-prefix atomicity — a batch containing an operation
whose owning prefix's namespace is not a valid Namespace instance makes
the callback receive the unknown-prefix error, with no operation encoded
and no store call (the errUnknownPrefix outcome carries neither). -/
theorem batch_unknown_prefix_aborts (env : Nat → NS) (spaceId : Nat) (ops : List BOp)
    (h : ∃ op ∈ ops, op.prefix_ = some .invalid) :
    spaceBatch env spaceId ops = .errUnknownPrefix := by
  have hscan := preScan_invalid env spaceId ops h
  simp [spaceBatch, hscan]

/-- Witness for C7: a one-op batch with an invalid op.prefix. -/
theorem batch_unknown_prefix_aborts_witness :
    spaceBatch (fun _ => ⟨[7], []⟩) 0
        [⟨OpType.put, .buf [1], some [2], some PrefixRef.invalid⟩]
      = BatchResult.errUnknownPrefix :=
  batch_unknown_prefix_aborts _ 0 _ ⟨_, List.mem_singleton.mpr rfl, rfl⟩

/-- Claim C8 (the code violates its trivial-success part): a one-put
batch whose pre-hook cancels the operation leaves the pending sequence
with no real operation (delete ops[i] leaves a hole), yet the underlying
store batch is still called — with the sparse hole-only array — instead
of the callback succeeding with no store call, because ops.length counts
holes and the !ops.length check cannot fire. -/
theorem batch_cancel_all_still_calls_store :
    spaceBatch (fun _ => ⟨[7], [fun _ => [MutateCall.cancel]]⟩) 0
        [⟨OpType.put, .buf [1], some [2], none⟩]
      = BatchResult.okStore [none] []
    ∧ BatchResult.okStore [none] ([] : List BOp) ≠ BatchResult.okEmpty := by
  exact ⟨rfl, by simp⟩

/-- One step of the deregistration closure on a cons cell. -/
theorem deregHook_cons (hook a : Nat) (l : List Nat) :
    deregHook hook (a :: l) = if a = hook then l else a :: deregHook hook l := by
  unfold deregHook
  rcases eq_or_ne a hook with hah | hah
  · simp [jsIndexOf, hah]
  · simp only [jsIndexOf, hah, if_false, if_neg, ne_eq, not_false_iff]
    cases hj : jsIndexOf hook l with
    | none => simp [hah, hj]
    | some i => simp [hah, hj, List.eraseIdx_cons_succ]

/-- The deregistration closure removes the first occurrence of the hook
value, exactly as Array.prototype.indexOf plus splice does. -/
theorem deregHook_eq_erase (hook : Nat) (l : List Nat) :
    deregHook hook l = l.erase hook := by
  induction l with
  | nil => rfl
  | cons a l ih =>
    rw [deregHook_cons, ih]
    rcases eq_or_ne a hook with hah | hah
    · simp [hah, List.erase_cons_head]
    · simp [List.erase_cons, hah]

/-- Claim C9 (amended): the deregistration closure removes the first
registration whose value equals the hook, not the stored slot.
Registering the same hook value twice and invoking one handle leaves
exactly one active registration, but invoking the same handle again
removes the remaining one as well; hooks of other values are never
touched. -/
theorem addHook_dereg (hook : Nat) (hs : List Nat) (hnot : hook ∉ hs) :
    deregHook hook (addHookReg (addHookReg hs hook) hook) = hs ++ [hook]
    ∧ deregHook hook (hs ++ [hook]) = hs
    ∧ (∀ g, g ≠ hook →
        (deregHook hook (addHookReg (addHookReg hs hook) hook)).count g
          = (addHookReg (addHookReg hs hook) hook).count g) := by
  have h1 : deregHook hook (addHookReg (addHookReg hs hook) hook) = hs ++ [hook] := by
    rw [deregHook_eq_erase, addHookReg, addHookReg, List.append_assoc,
        List.erase_append_right _ hnot]
    simp
  refine ⟨h1, ?_, ?_⟩
  · rw [deregHook_eq_erase, List.erase_append_right _ hnot]
    simp
  · intro g hg
    rw [h1, addHookReg, addHookReg]
    simp [List.count_append, List.count_cons, List.count_singleton, hg]

/-- Witness for C9's amended statement: one dereg invocation after a
double registration leaves exactly one active registration. -/
theorem addHook_dereg_witness :
    deregHook 5 (addHookReg (addHookReg [3] 5) 5) = [3] ++ [5] :=
  (addHook_dereg 5 [3] (by decide)).1

/-- Claim C9 counterexample: after registering the same hook value twice,
invoking the deregistration handle twice removes BOTH registrations —
the second invocation removes the remaining equal-valued hook rather
than removing nothing further. -/
theorem dereg_twice_removes_both :
    deregHook 5 (addHookReg (addHookReg [] 5) 5) = [5]
    ∧ deregHook 5 (deregHook 5 (addHookReg (addHookReg [] 5) 5)) = [] := by
  decide

end BytewiseSpace
